import Mathlib

/-!
Verification development for the vintage / transition-matrix estimation
utilities (`src/utils.py`).

Numeric cells are modelled as rationals (exact arithmetic in place of
floating point, so "within floating tolerance" readings become exact
equalities).  A pandas DataFrame holding a labelled matrix is modelled as
a structure carrying its row labels, column labels and a cell function.
Record tables are lists of records.
-/

/-- A labelled numeric matrix (the DataFrame shape used by the matrix
utilities): ordered row labels, ordered column labels, and cell contents. -/
@[ext]
structure DF where
  rows : List String
  cols : List String
  data : String → String → ℚ

/-- Sum of one row of a labelled matrix over its columns
(`df.sum(axis=1)` for that row). -/
def rowSum (df : DF) (r : String) : ℚ :=
  (df.cols.map (fun c => df.data r c)).sum

/-- Embedding of `row_normalize`: rows with nonzero sum are divided by the
row sum; rows whose sum is exactly zero are zero-filled.  Faithful to
`df.loc[nonzero] = df.loc[nonzero].div(row_sums[nonzero], axis=0)` and
`df.loc[~nonzero] = 0`. -/
def row_normalize (df : DF) : DF :=
  ⟨df.rows, df.cols, fun r c =>
    if rowSum df r ≠ 0 then df.data r c / rowSum df r else 0⟩

/-- Adding a constant to every cell of a frame (`counts + alpha`). -/
def addConst (df : DF) (alpha : ℚ) : DF :=
  ⟨df.rows, df.cols, fun r c => df.data r c + alpha⟩

/-- Embedding of `laplace_smoothing`: add `alpha` to every cell, then
row-normalize. -/
def laplace_smoothing (counts : DF) (alpha : ℚ) : DF :=
  row_normalize (addConst counts alpha)

/-- Clipping below zero (`df.clip(lower=0)`). -/
def clipNonneg (df : DF) : DF :=
  ⟨df.rows, df.cols, fun r c => max (df.data r c) 0⟩

/-- Embedding of `ensure_probability_matrix`: clip negatives, then
row-normalize. -/
def ensure_probability_matrix (df : DF) : DF :=
  row_normalize (clipNonneg df)

/- ### Generic list-sum helpers -/

theorem sum_map_div {α : Type} (l : List α) (f : α → ℚ) (s : ℚ) :
    (l.map (fun x => f x / s)).sum = (l.map f).sum / s := by
  induction l with
  | nil => simp
  | cons x xs ih => simp [ih, add_div]

theorem sum_map_zero {α : Type} (l : List α) :
    (l.map (fun _ => (0 : ℚ))).sum = 0 := by
  induction l with
  | nil => rfl
  | cons x xs ih => simp [ih]

theorem sum_map_add_distrib {α : Type} (l : List α) (f g : α → ℚ) :
    (l.map (fun x => f x + g x)).sum = (l.map f).sum + (l.map g).sum := by
  induction l with
  | nil => simp
  | cons x xs ih => simp [ih]; ring

theorem sum_map_congr_zero {α : Type} (l : List α) (f : α → ℚ)
    (h : ∀ x ∈ l, f x = 0) : (l.map f).sum = 0 := by
  induction l with
  | nil => rfl
  | cons x xs ih =>
    simp only [List.map_cons, List.sum_cons]
    rw [h x (List.mem_cons_self x xs), ih (fun y hy => h y (List.mem_cons_of_mem x hy))]
    ring

/- ### Core row_normalize lemmas (shared) -/

theorem row_normalize_rows (df : DF) : (row_normalize df).rows = df.rows := rfl

theorem row_normalize_cols (df : DF) : (row_normalize df).cols = df.cols := rfl

theorem row_normalize_data_of_ne (df : DF) (r : String) (h : rowSum df r ≠ 0) :
    ∀ c, (row_normalize df).data r c = df.data r c / rowSum df r := by
  intro c
  simp [row_normalize, h]

theorem row_normalize_data_of_zero (df : DF) (r : String) (h : rowSum df r = 0) :
    ∀ c, (row_normalize df).data r c = 0 := by
  intro c
  simp [row_normalize, h]

theorem row_normalize_rowSum_one (df : DF) (r : String) (h : rowSum df r ≠ 0) :
    rowSum (row_normalize df) r = 1 := by
  unfold rowSum row_normalize
  simp only [h, if_pos, ne_eq, not_false_eq_true, if_true]
  rw [sum_map_div]
  exact div_self h

theorem row_normalize_rowSum_zero (df : DF) (r : String) (h : rowSum df r = 0) :
    rowSum (row_normalize df) r = 0 := by
  unfold rowSum
  apply sum_map_congr_zero
  intro c _
  exact row_normalize_data_of_zero df r h c

/-- Claim C2: `row_normalize` keeps the shape and labels of its input; every
row with nonzero sum becomes the input row divided by the row sum (and then
sums to exactly 1); every row whose sum is exactly zero becomes all zero. -/
theorem C2_row_normalize_spec (df : DF) :
    (row_normalize df).rows = df.rows ∧
    (row_normalize df).cols = df.cols ∧
    ∀ r : String,
      (rowSum df r ≠ 0 →
        (∀ c, (row_normalize df).data r c = df.data r c / rowSum df r) ∧
        rowSum (row_normalize df) r = 1) ∧
      (rowSum df r = 0 → ∀ c, (row_normalize df).data r c = 0) := by
  refine ⟨rfl, rfl, fun r => ⟨fun h => ⟨row_normalize_data_of_ne df r h,
    row_normalize_rowSum_one df r h⟩, fun h => row_normalize_data_of_zero df r h⟩⟩

/-- Concrete 2x2 frame: row `A` is `[1, 3]`, row `B` is `[0, 0]`. -/
def dfC2 : DF :=
  ⟨["A", "B"], ["A", "B"], fun r c =>
    if r = "A" then (if c = "A" then 1 else 3) else 0⟩

/-- Witness for C2 at a concrete matrix: the nonzero row `A` normalizes to
sum 1 with first entry 1/4, and the zero row `B` stays all zero. -/
theorem C2_row_normalize_spec_witness :
    rowSum (row_normalize dfC2) "A" = 1 ∧
    (row_normalize dfC2).data "A" "A" = dfC2.data "A" "A" / rowSum dfC2 "A" ∧
    (row_normalize dfC2).data "B" "A" = 0 := by
  have hA : rowSum dfC2 "A" ≠ 0 := by (simp [rowSum, dfC2]; norm_num)
  have hB : rowSum dfC2 "B" = 0 := by simp [rowSum, dfC2]
  refine ⟨((C2_row_normalize_spec dfC2).2.2 "A").1 hA |>.2,
    (((C2_row_normalize_spec dfC2).2.2 "A").1 hA).1 "A",
    ((C2_row_normalize_spec dfC2).2.2 "B").2 hB "A"⟩

/-- Claim C6: Laplace smoothing with `alpha = 0` coincides exactly with
`row_normalize` applied to the raw counts. -/
theorem C6_laplace_zero_is_row_normalize (counts : DF) :
    laplace_smoothing counts 0 = row_normalize counts := by
  unfold laplace_smoothing
  cases counts with
  | mk rs cs d =>
    exact congrArg row_normalize
      (congrArg (DF.mk rs cs) (funext fun r => funext fun c => add_zero (d r c)))

/-- Claim C8: `row_normalize` is idempotent on already-normalized input:
if every row of the frame sums to 1 or is all zero on the grid, normalizing
returns the frame unchanged (same labels, same cells on the grid). -/
theorem C8_row_normalize_idempotent (df : DF)
    (h : ∀ r ∈ df.rows, rowSum df r = 1 ∨ ∀ c ∈ df.cols, df.data r c = 0) :
    (row_normalize df).rows = df.rows ∧
    (row_normalize df).cols = df.cols ∧
    ∀ r ∈ df.rows, ∀ c ∈ df.cols, (row_normalize df).data r c = df.data r c := by
  refine ⟨rfl, rfl, fun r hr c hc => ?_⟩
  rcases h r hr with h1 | h0
  · rw [row_normalize_data_of_ne df r (by rw [h1]; exact one_ne_zero) c, h1, div_one]
  · have hs : rowSum df r = 0 := by
      unfold rowSum
      exact sum_map_congr_zero _ _ (fun c hc => h0 c hc)
    rw [row_normalize_data_of_zero df r hs c, h0 c hc]

/-- Concrete already-normalized frame: row `A` is `[1/2, 1/2]`, row `B` all
zero. -/
def dfC8 : DF :=
  ⟨["A", "B"], ["A", "B"], fun r _ => if r = "A" then (1 : ℚ) / 2 else 0⟩

/-- Witness for C8 at a concrete normalized matrix: all grid cells are
returned unchanged. -/
theorem C8_row_normalize_idempotent_witness :
    (row_normalize dfC8).data "A" "B" = dfC8.data "A" "B" ∧
    (row_normalize dfC8).data "B" "A" = dfC8.data "B" "A" := by
  have h := C8_row_normalize_idempotent dfC8 (by
    intro r hr
    simp only [dfC8, List.mem_cons, List.not_mem_nil, or_false] at hr
    rcases hr with h1 | h1
    · subst h1
      left
      (simp [rowSum, dfC8]; norm_num)
    · subst h1
      right
      intro c _
      simp [dfC8])
  exact ⟨h.2.2 "A" (by simp [dfC8]) "B" (by simp [dfC8]),
    h.2.2 "B" (by simp [dfC8]) "A" (by simp [dfC8])⟩

/- ### String ordering (Python lexicographic order, kernel-computable) -/

/-- Lexicographic comparison of two character lists by code point; models
Python string ordering for `sorted` and `sort_values`. -/
def charListLt : List Char → List Char → Bool
  | [], [] => false
  | [], _ :: _ => true
  | _ :: _, [] => false
  | c :: cs, d :: ds =>
    if c.toNat < d.toNat then true
    else if d.toNat < c.toNat then false
    else charListLt cs ds

/-- Non-strict lexicographic string order used when sorting label sets. -/
def strLe (a b : String) : Prop := a = b ∨ charListLt a.data b.data = true

instance : DecidableRel strLe := fun a b => by
  unfold strLe
  infer_instance

/- ### PoolShrinkageEstimator (`shrink_toward_pool`) -/

/-- Global state set: the sorted union of all row and column labels across
the per-age tables (`sorted(all_states)` in the source). -/
def allStates (tables : List (ℤ × DF)) : List String :=
  List.insertionSort strLe
    ((tables.map (fun p => p.2.rows ++ p.2.cols)).flatten.dedup)

/-- Reindexing a table onto the square global grid, filling newly
introduced cells with zero (`tbl.reindex(index=all_states,
columns=all_states, fill_value=0)`). -/
def reindex (S : List String) (tbl : DF) : DF :=
  ⟨S, S, fun r c => if r ∈ tbl.rows ∧ c ∈ tbl.cols then tbl.data r c else 0⟩

/-- The all-zero frame on the global grid
(`pd.DataFrame(0, index=all_states, columns=all_states)`). -/
def zeroDF (S : List String) : DF := ⟨S, S, fun _ _ => 0⟩

/-- Elementwise frame addition (`pooled += tbl2`). -/
def addDF (m1 m2 : DF) : DF :=
  ⟨m1.rows, m1.cols, fun r c => m1.data r c + m2.data r c⟩

/-- Pooled counts: the loop summing every reindexed per-age table into the
zero frame. -/
def pooledDF (tables : List (ℤ × DF)) : DF :=
  tables.foldl (fun acc p => addDF acc (reindex (allStates tables) p.2))
    (zeroDF (allStates tables))

/-- The blended output matrix for one per-age table:
`(1 - pool_weight) * probs + pool_weight * pooled_probs`. -/
def blendFor (tables : List (ℤ × DF)) (w : ℚ) (tbl : DF) : DF :=
  ⟨allStates tables, allStates tables, fun r c =>
    (1 - w) * (row_normalize (reindex (allStates tables) tbl)).data r c
      + w * (row_normalize (pooledDF tables)).data r c⟩

/-- Embedding of `shrink_toward_pool`: each age keeps its key and maps to
the blend of its own normalized reindexed table with the pooled
probabilities. -/
def shrink_toward_pool (tables : List (ℤ × DF)) (w : ℚ) : List (ℤ × DF) :=
  tables.map (fun p => (p.1, blendFor tables w p.2))

theorem foldl_addDF_rows (S : List String) (l : List (ℤ × DF)) :
    ∀ init : DF,
      (l.foldl (fun acc p => addDF acc (reindex S p.2)) init).rows = init.rows := by
  induction l with
  | nil => intro init; rfl
  | cons p ps ih => intro init; exact ih (addDF init (reindex S p.2))

theorem foldl_addDF_cols (S : List String) (l : List (ℤ × DF)) :
    ∀ init : DF,
      (l.foldl (fun acc p => addDF acc (reindex S p.2)) init).cols = init.cols := by
  induction l with
  | nil => intro init; rfl
  | cons p ps ih => intro init; exact ih (addDF init (reindex S p.2))

theorem foldl_addDF_data (S : List String) (l : List (ℤ × DF)) (r c : String) :
    ∀ init : DF,
      (l.foldl (fun acc p => addDF acc (reindex S p.2)) init).data r c
        = init.data r c + (l.map (fun p => (reindex S p.2).data r c)).sum := by
  induction l with
  | nil => intro init; simp
  | cons p ps ih =>
    intro init
    simp only [List.foldl_cons, List.map_cons, List.sum_cons]
    rw [ih (addDF init (reindex S p.2))]
    show init.data r c + (reindex S p.2).data r c + _ = _
    ring

theorem pooledDF_rows (tables : List (ℤ × DF)) :
    (pooledDF tables).rows = allStates tables :=
  foldl_addDF_rows (allStates tables) tables (zeroDF (allStates tables))

theorem pooledDF_cols (tables : List (ℤ × DF)) :
    (pooledDF tables).cols = allStates tables :=
  foldl_addDF_cols (allStates tables) tables (zeroDF (allStates tables))

theorem pooledDF_data (tables : List (ℤ × DF)) (r c : String) :
    (pooledDF tables).data r c
      = (tables.map (fun p => (reindex (allStates tables) p.2).data r c)).sum := by
  rw [pooledDF, foldl_addDF_data]
  show 0 + _ = _
  ring

theorem pooledDF_data_nonneg (tables : List (ℤ × DF))
    (hnn : ∀ p ∈ tables, ∀ r ∈ p.2.rows, ∀ c ∈ p.2.cols, 0 ≤ p.2.data r c)
    (r c : String) : 0 ≤ (pooledDF tables).data r c := by
  rw [pooledDF_data]
  apply List.sum_nonneg
  intro x hx
  rcases List.mem_map.mp hx with ⟨p, hp, rfl⟩
  by_cases hrc : r ∈ p.2.rows ∧ c ∈ p.2.cols
  · simpa [reindex, hrc] using hnn p hp r hrc.1 c hrc.2
  · simp [reindex, hrc]

/-- Claim C7: with pool weight 0 the shrinkage output is exactly the list
of per-age row-normalized reindexed tables, and with pool weight 1 every
age maps to the pooled probability matrix. -/
theorem C7_shrink_weight_endpoints (tables : List (ℤ × DF)) :
    shrink_toward_pool tables 0
      = tables.map (fun p => (p.1, row_normalize (reindex (allStates tables) p.2))) ∧
    shrink_toward_pool tables 1
      = tables.map (fun p => (p.1, row_normalize (pooledDF tables))) := by
  constructor
  · unfold shrink_toward_pool
    refine congrArg (fun f => List.map f tables) (funext fun p => ?_)
    refine congrArg (Prod.mk p.1) ?_
    refine DF.ext rfl rfl ?_
    funext r c
    show (1 - 0) * (row_normalize (reindex (allStates tables) p.2)).data r c
        + 0 * (row_normalize (pooledDF tables)).data r c = _
    ring
  · unfold shrink_toward_pool
    refine congrArg (fun f => List.map f tables) (funext fun p => ?_)
    refine congrArg (Prod.mk p.1) ?_
    refine DF.ext (pooledDF_rows tables).symm (pooledDF_cols tables).symm ?_
    funext r c
    show (1 - 1) * (row_normalize (reindex (allStates tables) p.2)).data r c
        + 1 * (row_normalize (pooledDF tables)).data r c
      = (row_normalize (pooledDF tables)).data r c
    ring

/-- Claim C1: with pool weight `w` in `[0, 1]` and non-negative counts, a
state row that is all zero in one age's reindexed count table but has a
non-zero pooled count has a blended output row summing to exactly `w`. -/
theorem C1_shrink_zero_row_sums_to_w
    (tables : List (ℤ × DF)) (w : ℚ) (_hw0 : 0 ≤ w) (_hw1 : w ≤ 1)
    (hnn : ∀ p ∈ tables, ∀ r ∈ p.2.rows, ∀ c ∈ p.2.cols, 0 ≤ p.2.data r c)
    (a : ℤ) (tbl : DF) (hmem : (a, tbl) ∈ tables) (r : String)
    (hzero : ∀ c ∈ allStates tables, (reindex (allStates tables) tbl).data r c = 0)
    (hpool : ∃ c ∈ allStates tables, (pooledDF tables).data r c ≠ 0) :
    (a, blendFor tables w tbl) ∈ shrink_toward_pool tables w ∧
    rowSum (blendFor tables w tbl) r = w := by
  constructor
  · exact List.mem_map_of_mem _ hmem
  · have hPzero : ∀ c ∈ allStates tables,
        (row_normalize (reindex (allStates tables) tbl)).data r c = 0 := by
      intro c _
      apply row_normalize_data_of_zero
      unfold rowSum
      exact sum_map_congr_zero _ _ (fun c hc => hzero c hc)
    have hpoolSum : rowSum (pooledDF tables) r ≠ 0 := by
      rcases hpool with ⟨c0, hc0, hne⟩
      have hpos : 0 < (pooledDF tables).data r c0 :=
        lt_of_le_of_ne (pooledDF_data_nonneg tables hnn r c0) (Ne.symm hne)
      have hmemList : (pooledDF tables).data r c0
          ∈ (pooledDF tables).cols.map (fun c => (pooledDF tables).data r c) := by
        rw [pooledDF_cols]
        exact List.mem_map_of_mem _ hc0
      have hle : (pooledDF tables).data r c0 ≤ rowSum (pooledDF tables) r := by
        apply List.single_le_sum _ _ hmemList
        intro x hx
        rcases List.mem_map.mp hx with ⟨c, _, rfl⟩
        exact pooledDF_data_nonneg tables hnn r c
      exact ne_of_gt (lt_of_lt_of_le hpos hle)
    have hQsum : ((allStates tables).map
        (fun c => (row_normalize (pooledDF tables)).data r c)).sum = 1 := by
      have h1 := row_normalize_rowSum_one (pooledDF tables) r hpoolSum
      unfold rowSum at h1
      rw [row_normalize_cols, pooledDF_cols] at h1
      exact h1
    have hPsum : ((allStates tables).map
        (fun c => (row_normalize (reindex (allStates tables) tbl)).data r c)).sum = 0 :=
      sum_map_congr_zero _ _ hPzero
    unfold rowSum blendFor
    simp only
    rw [sum_map_add_distrib, List.sum_map_mul_left, List.sum_map_mul_left,
      hPsum, hQsum]
    ring

/-- Age-0 table observing only state `A`. -/
def tblA : DF := ⟨["A"], ["A"], fun _ _ => 1⟩

/-- Age-1 table observing only state `B`. -/
def tblB : DF := ⟨["B"], ["B"], fun _ _ => 2⟩

/-- Two-age input where state `B` is unobserved at age 0. -/
def tablesC1 : List (ℤ × DF) := [(0, tblA), (1, tblB)]

/-- Witness for C1: at age 0 the row for state `B` has no per-age
observations but non-zero pooled counts, and its blended row sums to the
pool weight 1/2, not 1. -/
theorem C1_shrink_zero_row_sums_to_w_witness :
    (0, blendFor tablesC1 (1 / 2) tblA) ∈ shrink_toward_pool tablesC1 (1 / 2) ∧
    rowSum (blendFor tablesC1 (1 / 2) tblA) "B" = 1 / 2 := by
  refine C1_shrink_zero_row_sums_to_w tablesC1 (1 / 2) (by norm_num) (by norm_num)
    ?_ 0 tblA ?_ "B" ?_ ?_
  · intro p hp
    simp only [tablesC1, List.mem_cons, List.not_mem_nil, or_false] at hp
    rcases hp with h1 | h1 <;> subst h1 <;>
      (intro r _ c _; norm_num [tblA, tblB])
  · show (0, tblA) ∈ (0, tblA) :: [(1, tblB)]
    exact List.mem_cons_self _ _
  · intro c _
    simp [reindex, tblA]
  · refine ⟨"B", ?_, ?_⟩
    · simp only [allStates, List.mem_insertionSort, List.mem_dedup]
      simp [tablesC1, tblA, tblB]
    · rw [pooledDF_data]
      simp [tablesC1, reindex, tblA, tblB]

/- ### Record model: AgeResolver (`compute_age_months`) -/

/-- A calendar timestamp at day granularity. `monthIndex` ignores the day,
exactly as `Timestamp.to_period('M')` does. -/
structure Date where
  year : ℤ
  month : ℤ
  day : ℤ
deriving DecidableEq

/-- The month-period of a date (`dt.to_period('M')`), as a linear month
count. -/
def monthIndex (d : Date) : ℤ := d.year * 12 + d.month

/-- One row of the loan observation table, with the column names of the
source data. `age_months` holds the age column once present. -/
structure LoanRec where
  loan_id : String
  origination_date : Date
  observation_date : Date
  age_months : ℤ
  delinquency_bucket : String
  balance : ℚ
deriving DecidableEq

/-- The integer age assigned to one record:
`(obs.to_period('M') - orig.to_period('M')).n`. -/
def ageOf (orig obs : Date) : ℤ := monthIndex obs - monthIndex orig

/-- Embedding of `compute_age_months`: every record gets its `age_months`
column set to the period difference; all other fields are untouched and no
record is dropped. -/
def compute_age_months (rows : List LoanRec) : List LoanRec :=
  rows.map (fun r =>
    { r with age_months := ageOf r.origination_date r.observation_date })

/-- Claim C5: the derived age is the whole-period (calendar month)
difference between observation and origination; the day component (any
partial period inside a month) never changes it; an observation before the
origination month gives a negative age; and every record passes through
with all of its other fields unchanged. -/
theorem C5_compute_age_months_spec :
    (∀ o b : Date, ∀ d1 d2 : ℤ,
      ageOf ⟨o.year, o.month, d1⟩ ⟨b.year, b.month, d2⟩ = ageOf o b) ∧
    (∀ o b : Date, ageOf o b = monthIndex b - monthIndex o) ∧
    (∀ o b : Date, monthIndex b < monthIndex o → ageOf o b < 0) ∧
    (∀ rows : List LoanRec,
      (compute_age_months rows).length = rows.length ∧
      ∀ r ∈ rows,
        { r with age_months := ageOf r.origination_date r.observation_date }
          ∈ compute_age_months rows) := by
  refine ⟨fun o b d1 d2 => rfl, fun o b => rfl, fun o b h => ?_, fun rows => ?_⟩
  · unfold ageOf
    omega
  · exact ⟨List.length_map rows _, fun r hr => List.mem_map_of_mem _ hr⟩

/-- Witness for C5 at concrete dates: origination 2020-01-31 and
observation 2020-02-01 give age 1 whichever days are used, and an
observation in 2019-12 gives the negative age -1. -/
theorem C5_compute_age_months_spec_witness :
    ageOf ⟨2020, 1, 31⟩ ⟨2020, 2, 1⟩ = ageOf ⟨2020, 1, 15⟩ ⟨2020, 2, 20⟩ ∧
    ageOf ⟨2020, 1, 15⟩ ⟨2019, 12, 15⟩ < 0 := by
  constructor
  · have h := (C5_compute_age_months_spec.1 ⟨2020, 1, 15⟩ ⟨2020, 2, 20⟩ 31 1).symm
    exact h.trans (C5_compute_age_months_spec.1 ⟨2020, 1, 15⟩ ⟨2020, 2, 20⟩ 15 20)
  · exact C5_compute_age_months_spec.2.2.1 ⟨2020, 1, 15⟩ ⟨2019, 12, 15⟩ (by decide)

/- ### TransitionCounter (`compute_empirical_transitions`) -/

/-- The projected working table `df[[id_col, age_col, state_col]]`. -/
structure TRow where
  id : String
  age : ℤ
  state : String
deriving DecidableEq

/-- Column projection onto (id, age, state). -/
def projT (r : LoanRec) : TRow :=
  ⟨r.loan_id, r.age_months, r.delinquency_bucket⟩

/-- Row order of `sort_values([id_col, age_col])`: lexicographic on the
entity id, then on the age. -/
def rowLe (x y : TRow) : Prop :=
  charListLt x.id.data y.id.data = true ∨ (x.id = y.id ∧ x.age ≤ y.age)

instance : DecidableRel rowLe := fun x y => by
  unfold rowLe
  infer_instance

/-- The sorted projected table `df2`. -/
def df2Sorted (rows : List LoanRec) : List TRow :=
  List.insertionSort rowLe (rows.map projT)

/-- One row of the joined frame: index (id, age), current state column,
and the `to_state` column contributed by the joined `df_next` row. -/
structure JRow where
  id : String
  age : ℤ
  state : String
  to_state : String
deriving DecidableEq

/-- The inner join `df_curr.join(df_next, how='inner')`: a current row `r`
at index `(r.id, r.age)` matches every `df_next` row, i.e. every source
row `q` re-indexed at `(q.id, q.age + 1)`; with duplicated index values
the join forms the full cartesian product of the matching rows. -/
def joinedRows (rows : List LoanRec) : List JRow :=
  (df2Sorted rows).flatMap (fun r =>
    ((df2Sorted rows).filter
        (fun q => decide (q.id = r.id ∧ q.age + 1 = r.age))).map
      (fun q => ⟨r.id, r.age, r.state, q.state⟩))

/-- The count in cell `(s, t)` of the age-`a` crosstab: joined rows grouped
at age `a` whose `state` column is `s` and `to_state` column is `t`. -/
def transCount (rows : List LoanRec) (a : ℤ) (s t : String) : ℕ :=
  ((joinedRows rows).filter
    (fun j => decide (j.age = a ∧ j.state = s ∧ j.to_state = t))).length

/-- Total number of transition units attributed to age `a`. -/
def transTotalAt (rows : List LoanRec) (a : ℤ) : ℕ :=
  ((joinedRows rows).filter (fun j => decide (j.age = a))).length

/-- Number of transition units attributed to age `a` for one entity. -/
def entityTransAt (rows : List LoanRec) (e : String) (a : ℤ) : ℕ :=
  ((joinedRows rows).filter (fun j => decide (j.id = e ∧ j.age = a))).length

/-- The ages that appear in the output dict (`joined.groupby(age_col)`
keys, ascending). -/
def transAges (rows : List LoanRec) : List ℤ :=
  List.insertionSort (fun a b : ℤ => a ≤ b)
    (((joinedRows rows).map (fun j => j.age)).dedup)

/-- The crosstab for one age: observed `state` values as row labels,
observed `to_state` values as column labels, counts as cells. -/
def transMatrix (rows : List LoanRec) (a : ℤ) : DF :=
  ⟨List.insertionSort strLe
      ((((joinedRows rows).filter (fun j => decide (j.age = a))).map
        (fun j => j.state)).dedup),
    List.insertionSort strLe
      ((((joinedRows rows).filter (fun j => decide (j.age = a))).map
        (fun j => j.to_state)).dedup),
    fun s t => (transCount rows a s t : ℚ)⟩

/-- Embedding of `compute_empirical_transitions`: the mapping from age to
per-age crosstab of the joined frame. -/
def compute_empirical_transitions (rows : List LoanRec) : List (ℤ × DF) :=
  (transAges rows).map (fun a => (a, transMatrix rows a))

/-- An observation record carrying only the fields the transition counter
reads (dates and balance are irrelevant placeholders). -/
def mkObs (i : String) (a : ℤ) (s : String) : LoanRec :=
  ⟨i, ⟨2020, 1, 1⟩, ⟨2020, 1, 1⟩, a, s, 0⟩

/-- Entity `X` observed at ages 0, 1, 2 in states A, B, C; entity `Y`
observed at ages 0 and 2 (gap at age 1) in states A, C. -/
def recsC3 : List LoanRec :=
  [mkObs "X" 0 "A", mkObs "X" 1 "B", mkObs "X" 2 "C",
   mkObs "Y" 0 "A", mkObs "Y" 2 "C"]

/-- Claim C3, evaluated on the spec's own example: the code pairs records
of the same entity at consecutive ages and entity `Y` (gap at age 1)
contributes nothing, but the two `X` transitions are keyed by the later
age (1 and 2, not 0 and 1) and each crosstab holds the pair in cell
(later state, earlier state): `(B, A)` at age 1 and `(C, B)` at age 2,
instead of `(A, B)` at age 0 and `(B, C)` at age 1. -/
theorem C3_transition_buckets_shifted :
    (compute_empirical_transitions recsC3).map Prod.fst = [1, 2] ∧
    transCount recsC3 1 "B" "A" = 1 ∧
    transCount recsC3 2 "C" "B" = 1 ∧
    transTotalAt recsC3 0 = 0 ∧
    transCount recsC3 0 "A" "B" = 0 ∧
    transCount recsC3 1 "B" "C" = 0 ∧
    ((joinedRows recsC3).filter (fun j => decide (j.id = "Y"))).length = 0 := by
  decide

theorem length_filter_flatMap {α β : Type} (l : List α) (g : α → List β)
    (p : β → Bool) :
    ((l.flatMap g).filter p).length
      = (l.map (fun x => ((g x).filter p).length)).sum := by
  induction l with
  | nil => rfl
  | cons x xs ih =>
    simp [List.flatMap_cons, List.filter_append, ih]

theorem sum_map_ite_const_nat {α : Type} (l : List α) (P : α → Prop)
    [DecidablePred P] (K : ℕ) :
    (l.map (fun x => if P x then K else 0)).sum
      = K * (l.filter (fun x => decide (P x))).length := by
  induction l with
  | nil => simp
  | cons x xs ih =>
    by_cases h : P x
    · simp [List.filter_cons, h, ih, Nat.mul_succ]
      omega
    · simp [List.filter_cons, h, ih]

/-- Counting (entity, age) rows of `df2` equals counting them in the input
table (the sort is a permutation and the projection keeps both fields). -/
theorem df2Sorted_count (rows : List LoanRec) (e : String) (a : ℤ) :
    ((df2Sorted rows).filter (fun q => decide (q.id = e ∧ q.age = a))).length
      = (rows.filter
          (fun r => decide (r.loan_id = e ∧ r.age_months = a))).length := by
  unfold df2Sorted
  rw [((List.perm_insertionSort rowLe (rows.map projT)).filter _).length_eq]
  rw [List.filter_map, List.length_map]
  rfl

/-- Claim C9 (amended): with `m` records at (entity, age `a`) and `n`
records at (entity, age `a+1`), the inner join forms the full `m × n`
cartesian product of pairs — but the resulting transition units are
counted in the age-`(a+1)` matrix, not the age-`a` matrix. -/
theorem C9_join_duplicates_cartesian (rows : List LoanRec) (e : String) (a : ℤ) :
    entityTransAt rows e (a + 1)
      = (rows.filter (fun r => decide (r.loan_id = e ∧ r.age_months = a))).length
        * (rows.filter
            (fun r => decide (r.loan_id = e ∧ r.age_months = a + 1))).length := by
  unfold entityTransAt joinedRows
  rw [length_filter_flatMap]
  have hfun : ∀ r : TRow,
      ((((df2Sorted rows).filter
          (fun q => decide (q.id = r.id ∧ q.age + 1 = r.age))).map
          (fun q => JRow.mk r.id r.age r.state q.state)).filter
          (fun j => decide (j.id = e ∧ j.age = a + 1))).length
        = if r.id = e ∧ r.age = a + 1 then
            ((df2Sorted rows).filter
              (fun q => decide (q.id = e ∧ q.age = a))).length
          else 0 := by
    intro r
    rw [List.filter_map, List.length_map]
    by_cases h : r.id = e ∧ r.age = a + 1
    · rw [if_pos h]
      have hconst : ((fun j : JRow => decide (j.id = e ∧ j.age = a + 1))
          ∘ (fun q : TRow => JRow.mk r.id r.age r.state q.state))
          = fun _ => true := by
        funext q
        simp [Function.comp, h.1, h.2]
      rw [hconst, List.filter_true]
      have hpred : (fun q : TRow => decide (q.id = r.id ∧ q.age + 1 = r.age))
          = fun q => decide (q.id = e ∧ q.age = a) := by
        funext q
        apply decide_eq_decide.mpr
        rw [h.1, h.2]
        constructor
        · rintro ⟨h1, h2⟩
          exact ⟨h1, by omega⟩
        · rintro ⟨h1, h2⟩
          exact ⟨h1, by omega⟩
      rw [hpred]
    · rw [if_neg h]
      have hconst : ((fun j : JRow => decide (j.id = e ∧ j.age = a + 1))
          ∘ (fun q : TRow => JRow.mk r.id r.age r.state q.state))
          = fun _ => false := by
        funext q
        simpa [Function.comp] using h
      rw [hconst, List.filter_false]
      rfl
  rw [funext hfun, sum_map_ite_const_nat, df2Sorted_count, df2Sorted_count]

/-- Duplicate-row input: entity `E` has two records at age 0 (both state
`A`) and one record at age 1 (state `B`). -/
def recsC9 : List LoanRec :=
  [mkObs "E" 0 "A", mkObs "E" 0 "A", mkObs "E" 1 "B"]

/-- Counterexample to C9 as stated: with m = 2 records at (E, 0) and
n = 1 record at (E, 1), the age-0 matrix holds 0 transition units, not
m × n = 2; the two cartesian pairs are counted at age 1 instead. -/
theorem C9_counterexample_age_bucket :
    (recsC9.filter
      (fun r => decide (r.loan_id = "E" ∧ r.age_months = 0))).length = 2 ∧
    (recsC9.filter
      (fun r => decide (r.loan_id = "E" ∧ r.age_months = 1))).length = 1 ∧
    entityTransAt recsC9 "E" 0 = 0 ∧
    ¬ entityTransAt recsC9 "E" 0 = 2 * 1 ∧
    entityTransAt recsC9 "E" 1 = 2 := by
  decide

/- ### VintagePivotBuilder (`build_vintage_pivot`) -/

/-- The pivot row key of a record: (vintage, age). -/
def rowKeyV (r : LoanRec) : Date × ℤ := (r.origination_date, r.age_months)

/-- The pivot table: (vintage, age) row keys, one column per observed
state, numeric cells.  Key order (pandas sorts its index and columns) is
irrelevant to the cells and to any total, so observation order is kept. -/
structure PivotTab where
  rowKeys : List (Date × ℤ)
  colKeys : List String
  cell : Date × ℤ → String → ℚ

/-- One pivot cell: the summed balance over records matching
(vintage, age, state); absent combinations sum over the empty list and
give the `fill_value=0`. -/
def pivotCell (rows : List LoanRec) (q : Date × ℤ) (s : String) : ℚ :=
  ((rows.filter
      (fun r => decide (rowKeyV r = q ∧ r.delinquency_bucket = s))).map
    (fun r => r.balance)).sum

/-- Embedding of `build_vintage_pivot`: group by (vintage, age, state)
summing the balance, then reshape with states as columns and observed
(vintage, age) pairs as rows. -/
def build_vintage_pivot (rows : List LoanRec) : PivotTab :=
  ⟨(rows.map rowKeyV).dedup,
    (rows.map (fun r => r.delinquency_bucket)).dedup,
    fun q s => pivotCell rows q s⟩

/-- The sum of every cell of a pivot table. -/
def pivotTabTotal (t : PivotTab) : ℚ :=
  (t.rowKeys.map (fun q => (t.colKeys.map (fun s => t.cell q s)).sum)).sum

theorem sum_ite_eq_of_nodup {κ : Type} [DecidableEq κ] (c : κ) (v : ℚ) :
    ∀ K : List κ, K.Nodup → c ∈ K →
      (K.map (fun q => if c = q then v else 0)).sum = v := by
  intro K
  induction K with
  | nil => intro _ hc; cases hc
  | cons k ks ih =>
    intro hnd hc
    simp only [List.map_cons, List.sum_cons]
    rcases List.mem_cons.mp hc with h | h
    · subst h
      rw [if_pos rfl, sum_map_congr_zero _ _ (fun q hq =>
        if_neg (by intro he; exact (List.nodup_cons.mp hnd).1 (he ▸ hq)))]
      ring
    · rw [if_neg (by intro he; exact (List.nodup_cons.mp hnd).1 (he ▸ h)),
        ih (List.nodup_cons.mp hnd).2 h]
      ring

/-- Summing, over a duplicate-free key list covering every record, the
per-key fiber sums recovers the total sum. -/
theorem sum_fiber {α κ : Type} [DecidableEq κ] (k : α → κ) (val : α → ℚ)
    (K : List κ) (hnd : K.Nodup) :
    ∀ l : List α, (∀ x ∈ l, k x ∈ K) →
      (K.map
        (fun q => ((l.filter (fun x => decide (k x = q))).map val).sum)).sum
        = (l.map val).sum := by
  intro l
  induction l with
  | nil =>
    intro _
    simp only [List.filter_nil, List.map_nil, List.sum_nil]
    exact sum_map_zero K
  | cons x xs ih =>
    intro hcov
    have hx : k x ∈ K := hcov x (List.mem_cons_self x xs)
    have hterm : ∀ q : κ,
        (((x :: xs).filter (fun y => decide (k y = q))).map val).sum
          = (if k x = q then val x else 0)
            + ((xs.filter (fun y => decide (k y = q))).map val).sum := by
      intro q
      rw [List.filter_cons]
      by_cases h : k x = q
      · simp [h]
      · simp [h]
    calc (K.map
          (fun q => (((x :: xs).filter (fun y => decide (k y = q))).map val).sum)).sum
        = (K.map (fun q => (if k x = q then val x else 0)
            + ((xs.filter (fun y => decide (k y = q))).map val).sum)).sum := by
          rw [funext hterm]
      _ = (K.map (fun q => if k x = q then val x else 0)).sum
            + (K.map
              (fun q => ((xs.filter (fun y => decide (k y = q))).map val).sum)).sum :=
          sum_map_add_distrib K _ _
      _ = val x + (xs.map val).sum := by
          rw [sum_ite_eq_of_nodup (k x) (val x) K hnd hx,
            ih (fun y hy => hcov y (List.mem_cons_of_mem x hy))]
      _ = ((x :: xs).map val).sum := by
          simp

theorem pivotCell_eq_nested_filter (rows : List LoanRec) (q : Date × ℤ)
    (s : String) :
    pivotCell rows q s
      = (((rows.filter (fun r => decide (rowKeyV r = q))).filter
          (fun r => decide (r.delinquency_bucket = s))).map
          (fun r => r.balance)).sum := by
  unfold pivotCell
  rw [List.filter_filter]
  rw [show (fun r : LoanRec =>
      decide (r.delinquency_bucket = s) && decide (rowKeyV r = q))
    = (fun r : LoanRec => decide (rowKeyV r = q ∧ r.delinquency_bucket = s))
    from funext (fun r => by simp [Bool.and_comm])]

/-- Claim C4: the sum of all cells of the pivot produced by
`build_vintage_pivot` equals the sum of the balance field over all input
rows — no record is dropped or double-counted. -/
theorem C4_pivot_conserves_total (rows : List LoanRec) :
    pivotTabTotal (build_vintage_pivot rows)
      = (rows.map (fun r => r.balance)).sum := by
  unfold pivotTabTotal build_vintage_pivot
  simp only
  have hrow : ∀ q : Date × ℤ,
      ((rows.map (fun r => r.delinquency_bucket)).dedup.map
        (fun s => pivotCell rows q s)).sum
        = ((rows.filter (fun r => decide (rowKeyV r = q))).map
            (fun r => r.balance)).sum := by
    intro q
    rw [funext (fun s => pivotCell_eq_nested_filter rows q s)]
    exact sum_fiber (fun r : LoanRec => r.delinquency_bucket)
      (fun r => r.balance) _ (List.nodup_dedup _) _
      (fun x hx => List.mem_dedup.mpr
        (List.mem_map_of_mem _ (List.mem_of_mem_filter hx)))
  rw [funext hrow]
  exact sum_fiber rowKeyV (fun r => r.balance) _ (List.nodup_dedup _) rows
    (fun x hx => List.mem_dedup.mpr (List.mem_map_of_mem _ hx))

/- ### Frame condition: no public function mutates its input (C10)

The pandas heap is modelled as a store of objects; each public function is
embedded as explicit state passing that mirrors the source's allocation
and in-place-write structure: every `.copy()` / constructor call allocates
a fresh cell, and every in-place statement (`df[col] = ...`,
`df.loc[...] = ...`, `pooled += ...`, metadata assignment) writes to the
cell it targets — which in the source is always a freshly allocated copy,
never the caller's input. -/

/-- A heap object: a loan table (with or without the age column), the
projected transition working table (with or without `next_age`), a
labelled matrix, a dict of matrices, or a pivot table. -/
inductive PdObj where
  | frame (hasAge : Bool) (rows : List LoanRec)
  | trows (hasNext : Bool) (ts : List TRow)
  | mat (m : DF)
  | matDict (d : List (ℤ × DF))
  | pivot (t : PivotTab)

/-- The heap: a list of objects addressed by position. -/
abbrev Store := List PdObj

/-- Read the object at address `i`. -/
def readS (σ : Store) (i : ℕ) : PdObj := σ.getD i (PdObj.mat (zeroDF []))

/-- Allocate a fresh cell holding `v`; returns the new store and the
fresh address. -/
def allocS (σ : Store) (v : PdObj) : Store × ℕ := (σ ++ [v], σ.length)

/-- In-place write to the cell at address `i`. -/
def writeS (σ : Store) (i : ℕ) (v : PdObj) : Store := σ.set i v

def asFrame : PdObj → Bool × List LoanRec
  | .frame h rs => (h, rs)
  | _ => (true, [])

def asMat : PdObj → DF
  | .mat m => m
  | _ => zeroDF []

def asDict : PdObj → List (ℤ × DF)
  | .matDict d => d
  | _ => []

/-- Stateful `compute_age_months`: copy the input frame into a fresh cell,
then write the age column in place on the copy. -/
def compute_age_months_st (σ : Store) (i : ℕ) : Store × ℕ :=
  let df := asFrame (readS σ i)
  let a1 := allocS σ (PdObj.frame df.1 df.2)
  let σ1 := writeS a1.1 a1.2 (PdObj.frame true (compute_age_months df.2))
  (σ1, a1.2)

/-- Stateful `row_normalize`: `df.copy().astype(float)` allocates, then the
two `.loc` assignments write the divided rows and the zeroed rows in place
on the copy. -/
def row_normalize_st (σ : Store) (i : ℕ) : Store × ℕ :=
  let m := asMat (readS σ i)
  let a1 := allocS σ (PdObj.mat m)
  let σ1 := writeS a1.1 a1.2 (PdObj.mat
    ⟨m.rows, m.cols, fun r c =>
      if rowSum m r ≠ 0 then m.data r c / rowSum m r else m.data r c⟩)
  let σ2 := writeS σ1 a1.2 (PdObj.mat (row_normalize m))
  (σ2, a1.2)

/-- Stateful `build_vintage_pivot`: derive ages if the column is missing
(allocating, never touching the input), build the pivot into a fresh cell,
then set its index and column names in place on that fresh cell. -/
def build_vintage_pivot_st (σ : Store) (i : ℕ) : Store × ℕ :=
  let df := asFrame (readS σ i)
  let step := if df.1 = true then (σ, i) else compute_age_months_st σ i
  let rows := (asFrame (readS step.1 step.2)).2
  let a1 := allocS step.1 (PdObj.pivot (build_vintage_pivot rows))
  let σ2 := writeS a1.1 a1.2 (PdObj.pivot (build_vintage_pivot rows))
  (σ2, a1.2)

/-- Stateful `compute_empirical_transitions`: derive ages if missing, copy
the projected columns into `df2`, write `next_age` in place on `df2`, and
build the joined frame and output dict as fresh objects. -/
def compute_empirical_transitions_st (σ : Store) (i : ℕ) : Store × ℕ :=
  let df := asFrame (readS σ i)
  let step := if df.1 = true then (σ, i) else compute_age_months_st σ i
  let rows := (asFrame (readS step.1 step.2)).2
  let a1 := allocS step.1 (PdObj.trows false (rows.map projT))
  let σ2 := writeS a1.1 a1.2 (PdObj.trows true (rows.map projT))
  let a2 := allocS σ2 (PdObj.matDict (compute_empirical_transitions rows))
  (a2.1, a2.2)

/-- Stateful `laplace_smoothing`: `counts + alpha` allocates a fresh frame,
which is then row-normalized. -/
def laplace_smoothing_st (σ : Store) (i : ℕ) (alpha : ℚ) : Store × ℕ :=
  let counts := asMat (readS σ i)
  let a1 := allocS σ (PdObj.mat (addConst counts alpha))
  row_normalize_st a1.1 a1.2

/-- Stateful `ensure_probability_matrix`: `clip` allocates a fresh frame,
which is then row-normalized. -/
def ensure_probability_matrix_st (σ : Store) (i : ℕ) : Store × ℕ :=
  let m := asMat (readS σ i)
  let a1 := allocS σ (PdObj.mat (clipNonneg m))
  row_normalize_st a1.1 a1.2

/-- One iteration of the pooling loop: allocate the reindexed table
(`tbl2 = tbl.reindex(...)`), then add it in place into the pooled cell at
address `j` (`pooled += tbl2`). -/
def poolAccum (S : List String) (j : ℕ) (σa : Store) (p : ℤ × DF) : Store :=
  let at2 := allocS σa (PdObj.mat (reindex S p.2))
  writeS at2.1 j (PdObj.mat (addDF (asMat (readS at2.1 j)) (reindex S p.2)))

/-- One iteration of the per-age loop: allocate the reindexed table,
row-normalize it, allocate the blended matrix, and record the output
entry. -/
def blendStep (tables : List (ℤ × DF)) (S : List String) (w : ℚ)
    (acc : Store × List (ℤ × DF)) (p : ℤ × DF) : Store × List (ℤ × DF) :=
  let at2 := allocS acc.1 (PdObj.mat (reindex S p.2))
  let pr := row_normalize_st at2.1 at2.2
  let ab := allocS pr.1 (PdObj.mat (blendFor tables w p.2))
  (ab.1, acc.2 ++ [(p.1, blendFor tables w p.2)])

/-- Stateful `shrink_toward_pool`: allocate the zero pooled frame, add each
freshly reindexed table into it in place, normalize it, then per age
allocate the reindexed table, normalize it and allocate the blend; finally
allocate the output dict. -/
def shrink_toward_pool_st (σ : Store) (i : ℕ) (w : ℚ) : Store × ℕ :=
  let tables := asDict (readS σ i)
  let S := allStates tables
  let ap := allocS σ (PdObj.mat (zeroDF S))
  let σloop := tables.foldl (poolAccum S ap.2) ap.1
  let pn := row_normalize_st σloop ap.2
  let out := tables.foldl (blendStep tables S w) (pn.1, ([] : List (ℤ × DF)))
  let af := allocS out.1 (PdObj.matDict out.2)
  (af.1, af.2)

/-- `σ2` extends `σ`: every cell of `σ` is still present, unchanged, at
its old address; only fresh cells were appended or written. -/
def Extends (σ σ2 : Store) : Prop := ∃ δ, σ2 = σ ++ δ

theorem Extends.refl (σ : Store) : Extends σ σ := ⟨[], (List.append_nil σ).symm⟩

theorem Extends.trans {σ1 σ2 σ3 : Store} (h1 : Extends σ1 σ2)
    (h2 : Extends σ2 σ3) : Extends σ1 σ3 := by
  rcases h1 with ⟨d1, rfl⟩
  rcases h2 with ⟨d2, rfl⟩
  exact ⟨d1 ++ d2, List.append_assoc σ1 d1 d2⟩

theorem Extends.length_le {σ σ2 : Store} (h : Extends σ σ2) :
    σ.length ≤ σ2.length := by
  rcases h with ⟨d, rfl⟩
  simp

theorem extends_alloc (σ : Store) (v : PdObj) : Extends σ (allocS σ v).1 :=
  ⟨[v], rfl⟩

theorem set_append_of_le (δ : List PdObj) (v : PdObj) :
    ∀ (σ : List PdObj) (j : ℕ), σ.length ≤ j →
      (σ ++ δ).set j v = σ ++ δ.set (j - σ.length) v := by
  intro σ
  induction σ with
  | nil => intro j h; simp
  | cons a σ ih =>
    intro j h
    cases j with
    | zero => simp at h
    | succ j2 =>
      have h2 : σ.length ≤ j2 := by simpa using h
      show a :: (σ ++ δ).set j2 v = a :: (σ ++ δ.set (j2 + 1 - (σ.length + 1)) v)
      rw [ih j2 h2, Nat.succ_sub_succ]

theorem extends_write {σ σ2 : Store} (j : ℕ) (v : PdObj) (h : Extends σ σ2)
    (hj : σ.length ≤ j) : Extends σ (writeS σ2 j v) := by
  rcases h with ⟨δ, rfl⟩
  exact ⟨δ.set (j - σ.length) v, set_append_of_le δ v σ j hj⟩

theorem foldl_extends {β : Type} (σ : Store) (f : Store → β → Store)
    (hf : ∀ s b, Extends σ s → Extends σ (f s b)) :
    ∀ (l : List β) (s : Store), Extends σ s → Extends σ (l.foldl f s) := by
  intro l
  induction l with
  | nil => intro s hs; exact hs
  | cons b bs ih => intro s hs; exact ih (f s b) (hf s b hs)

theorem foldl_extends_pair {β γ : Type} (σ : Store)
    (f : Store × γ → β → Store × γ)
    (hf : ∀ s b, Extends σ s.1 → Extends σ ((f s b).1)) :
    ∀ (l : List β) (s : Store × γ), Extends σ s.1 → Extends σ ((l.foldl f s).1) := by
  intro l
  induction l with
  | nil => intro s hs; exact hs
  | cons b bs ih => intro s hs; exact ih (f s b) (hf s b hs)

theorem compute_age_months_st_spec (σ : Store) (i : ℕ) :
    Extends σ (compute_age_months_st σ i).1 ∧
    σ.length ≤ (compute_age_months_st σ i).2 := by
  constructor
  · exact extends_write _ _ (extends_alloc σ _) (le_refl _)
  · exact le_refl _

theorem row_normalize_st_spec (σ : Store) (i : ℕ) :
    Extends σ (row_normalize_st σ i).1 ∧
    σ.length ≤ (row_normalize_st σ i).2 := by
  constructor
  · exact extends_write _ _ (extends_write _ _ (extends_alloc σ _) (le_refl _))
      (le_refl _)
  · exact le_refl _

theorem poolAccum_extends (σ : Store) (S : List String) (j : ℕ)
    (hj : σ.length ≤ j) :
    ∀ (s : Store) (b : ℤ × DF), Extends σ s → Extends σ (poolAccum S j s b) :=
  fun _ _ hs => extends_write _ _ (hs.trans (extends_alloc _ _)) hj

theorem blendStep_extends (σ : Store) (tables : List (ℤ × DF))
    (S : List String) (w : ℚ) :
    ∀ (s : Store × List (ℤ × DF)) (b : ℤ × DF),
      Extends σ s.1 → Extends σ ((blendStep tables S w s b).1) :=
  fun _ _ hs =>
    ((hs.trans (extends_alloc _ _)).trans
      (row_normalize_st_spec _ _).1).trans (extends_alloc _ _)

theorem build_vintage_pivot_st_spec (σ : Store) (i : ℕ) :
    Extends σ (build_vintage_pivot_st σ i).1 ∧
    σ.length ≤ (build_vintage_pivot_st σ i).2 := by
  have hstep : Extends σ (if (asFrame (readS σ i)).1 = true then (σ, i)
      else compute_age_months_st σ i).1 := by
    by_cases h : (asFrame (readS σ i)).1 = true
    · rw [if_pos h]
      exact Extends.refl σ
    · rw [if_neg h]
      exact (compute_age_months_st_spec σ i).1
  constructor
  · exact extends_write _ _ (hstep.trans (extends_alloc _ _)) hstep.length_le
  · exact hstep.length_le

theorem compute_empirical_transitions_st_spec (σ : Store) (i : ℕ) :
    Extends σ (compute_empirical_transitions_st σ i).1 ∧
    σ.length ≤ (compute_empirical_transitions_st σ i).2 := by
  have hstep : Extends σ (if (asFrame (readS σ i)).1 = true then (σ, i)
      else compute_age_months_st σ i).1 := by
    by_cases h : (asFrame (readS σ i)).1 = true
    · rw [if_pos h]
      exact Extends.refl σ
    · rw [if_neg h]
      exact (compute_age_months_st_spec σ i).1
  have h2 : Extends σ (writeS
      (allocS (if (asFrame (readS σ i)).1 = true then (σ, i)
        else compute_age_months_st σ i).1
        (PdObj.trows false
          (((asFrame (readS (if (asFrame (readS σ i)).1 = true then (σ, i)
            else compute_age_months_st σ i).1
            (if (asFrame (readS σ i)).1 = true then (σ, i)
              else compute_age_months_st σ i).2)).2).map projT))).1
      (allocS (if (asFrame (readS σ i)).1 = true then (σ, i)
        else compute_age_months_st σ i).1
        (PdObj.trows false
          (((asFrame (readS (if (asFrame (readS σ i)).1 = true then (σ, i)
            else compute_age_months_st σ i).1
            (if (asFrame (readS σ i)).1 = true then (σ, i)
              else compute_age_months_st σ i).2)).2).map projT))).2
      (PdObj.trows true
        (((asFrame (readS (if (asFrame (readS σ i)).1 = true then (σ, i)
          else compute_age_months_st σ i).1
          (if (asFrame (readS σ i)).1 = true then (σ, i)
            else compute_age_months_st σ i).2)).2).map projT))) :=
    extends_write _ _ (hstep.trans (extends_alloc _ _)) hstep.length_le
  constructor
  · exact h2.trans (extends_alloc _ _)
  · exact h2.length_le

theorem laplace_smoothing_st_spec (σ : Store) (i : ℕ) (alpha : ℚ) :
    Extends σ (laplace_smoothing_st σ i alpha).1 ∧
    σ.length ≤ (laplace_smoothing_st σ i alpha).2 := by
  constructor
  · exact (extends_alloc σ _).trans (row_normalize_st_spec _ _).1
  · exact le_trans (extends_alloc σ _).length_le (row_normalize_st_spec _ _).2

theorem ensure_probability_matrix_st_spec (σ : Store) (i : ℕ) :
    Extends σ (ensure_probability_matrix_st σ i).1 ∧
    σ.length ≤ (ensure_probability_matrix_st σ i).2 := by
  constructor
  · exact (extends_alloc σ _).trans (row_normalize_st_spec _ _).1
  · exact le_trans (extends_alloc σ _).length_le (row_normalize_st_spec _ _).2

theorem shrink_toward_pool_st_spec (σ : Store) (i : ℕ) (w : ℚ) :
    Extends σ (shrink_toward_pool_st σ i w).1 ∧
    σ.length ≤ (shrink_toward_pool_st σ i w).2 := by
  have h1 : Extends σ ((asDict (readS σ i)).foldl
      (poolAccum (allStates (asDict (readS σ i)))
        (allocS σ (PdObj.mat (zeroDF (allStates (asDict (readS σ i)))))).2)
      (allocS σ (PdObj.mat (zeroDF (allStates (asDict (readS σ i)))))).1) :=
    foldl_extends σ _
      (poolAccum_extends σ _ _ (le_refl _)) _ _ (extends_alloc σ _)
  have h2 : Extends σ (((asDict (readS σ i)).foldl
      (blendStep (asDict (readS σ i)) (allStates (asDict (readS σ i))) w)
      ((row_normalize_st
          ((asDict (readS σ i)).foldl
            (poolAccum (allStates (asDict (readS σ i)))
              (allocS σ (PdObj.mat (zeroDF (allStates (asDict (readS σ i)))))).2)
            (allocS σ (PdObj.mat (zeroDF (allStates (asDict (readS σ i)))))).1)
          (allocS σ (PdObj.mat (zeroDF (allStates (asDict (readS σ i)))))).2).1,
        ([] : List (ℤ × DF)))).1) :=
    foldl_extends_pair σ _ (blendStep_extends σ _ _ _) _ _
      (h1.trans (row_normalize_st_spec _ _).1)
  exact ⟨h2.trans (extends_alloc _ _), h2.length_le⟩

/-- Claim C10: no public function mutates its input.  For every starting
heap and input address, each of the seven stateful embeddings returns a
heap that extends the starting heap — every pre-existing object, the
caller's input included, is unchanged at its old address — and the result
address is fresh (at or beyond the old heap end), i.e. a newly constructed
object. -/
theorem C10_no_input_mutation (σ : Store) (i : ℕ) (w alpha : ℚ) :
    (Extends σ (compute_age_months_st σ i).1 ∧
      σ.length ≤ (compute_age_months_st σ i).2) ∧
    (Extends σ (build_vintage_pivot_st σ i).1 ∧
      σ.length ≤ (build_vintage_pivot_st σ i).2) ∧
    (Extends σ (compute_empirical_transitions_st σ i).1 ∧
      σ.length ≤ (compute_empirical_transitions_st σ i).2) ∧
    (Extends σ (row_normalize_st σ i).1 ∧
      σ.length ≤ (row_normalize_st σ i).2) ∧
    (Extends σ (laplace_smoothing_st σ i alpha).1 ∧
      σ.length ≤ (laplace_smoothing_st σ i alpha).2) ∧
    (Extends σ (shrink_toward_pool_st σ i w).1 ∧
      σ.length ≤ (shrink_toward_pool_st σ i w).2) ∧
    (Extends σ (ensure_probability_matrix_st σ i).1 ∧
      σ.length ≤ (ensure_probability_matrix_st σ i).2) :=
  ⟨compute_age_months_st_spec σ i, build_vintage_pivot_st_spec σ i,
    compute_empirical_transitions_st_spec σ i, row_normalize_st_spec σ i,
    laplace_smoothing_st_spec σ i alpha, shrink_toward_pool_st_spec σ i w,
    ensure_probability_matrix_st_spec σ i⟩
